import Mathlib

/-!
Verification of the implicit-feedback ALS recommender.

The repository's own code is the notebook pipeline (ISBN densification via
`distinct`/`zipWithIndex`/`join`, mapping all kept ratings to strength 1, and
the query pattern built on `predictAll`/`takeOrdered`).  The numerical core
(`ALS.trainImplicit` and the model's query methods) lives in the external
`pyspark.mllib.recommendation` library felt through its call sites, so those
components are modelled from the specification as noted on each definition.
Real numbers are embedded as rationals.
-/

namespace ImplicitALS

open scoped Matrix

/-! ## ETL from the source notebook -/

/-- A raw rating row from implicit.csv: (user id, isbn string, rating). -/
abbrev RawRating := ℕ × String × ℕ

/-- The distinct isbns of the ratings stream, from the source line
`isbns = ratings.map(lambda x:x[1]).distinct()`. -/
def isbns (ratings : List RawRating) : List String :=
  (ratings.map fun r => r.2.1).dedup

/-- Pair each list element with its position, embedding the RDD
`zipWithIndex()` operation used by the notebook. -/
def zipWithIndex {α : Type} (l : List α) : List (α × ℕ) :=
  l.zip (List.range l.length)

/-- From the source line `isbns_with_indices = isbns.zipWithIndex()`:
the association of an integer index to each distinct isbn. -/
def isbns_with_indices (ratings : List RawRating) : List (String × ℕ) :=
  zipWithIndex (isbns ratings)

/-! ## Confidence Model (spec-modelled) -/

/-- Modelled from the spec: the Confidence Model of the ALS core, whose
implementation (inside `pyspark.mllib.recommendation.ALS.trainImplicit`) is
not part of this repository.  It maps a raw strength to a preference
indicator and a confidence weight `1 + alpha * raw_strength`, dropping
entries with non-positive raw strength. -/
def confidence_and_preference (raw_strength alpha : ℚ) : Option (ℕ × ℚ) :=
  if 0 < raw_strength then some (1, 1 + alpha * raw_strength) else none

/-! ## Sparse Interaction Index (spec-modelled) -/

/-- An observation triple (user index, item index, strength). -/
abbrev Obs := ℕ × ℕ × ℚ

/-- Modelled from the spec: the aggregate confidence of a (user, item) pair,
summing the confidences of all duplicate entries for that pair. -/
def aggConf (entries : List Obs) (u i : ℕ) : ℚ :=
  ((entries.filter fun e => decide (e.1 = u) && decide (e.2.1 = i)).map
    fun e => e.2.2).sum

/-- The distinct items a user interacted with. -/
def userItems (entries : List Obs) (u : ℕ) : List ℕ :=
  ((entries.filter fun e => decide (e.1 = u)).map fun e => e.2.1).dedup

/-- The distinct users who interacted with an item. -/
def itemUsers (entries : List Obs) (i : ℕ) : List ℕ :=
  ((entries.filter fun e => decide (e.2.1 = i)).map fun e => e.1).dedup

/-- Modelled from the spec: the per-user adjacency list of the Sparse
Interaction Index, one (item, aggregate confidence) pair per distinct item. -/
def by_userOf (entries : List Obs) (u : ℕ) : List (ℕ × ℚ) :=
  (userItems entries u).map fun i => (i, aggConf entries u i)

/-- Modelled from the spec: the per-item adjacency list of the Sparse
Interaction Index, one (user, aggregate confidence) pair per distinct user. -/
def by_itemOf (entries : List Obs) (i : ℕ) : List (ℕ × ℚ) :=
  (itemUsers entries i).map fun u => (u, aggConf entries u i)

/-- Error raised by Sparse Interaction Index construction. -/
inductive IndexError where
  | InvalidIndex : ℕ → ℕ → IndexError
deriving DecidableEq

/-- The Sparse Interaction Index: declared dense bounds and the two
adjacency structures. -/
structure InteractionIndex where
  Nu : ℕ
  Np : ℕ
  by_user : ℕ → List (ℕ × ℚ)
  by_item : ℕ → List (ℕ × ℚ)

/-- Modelled from the spec: Sparse Interaction Index construction.  It
validates that every observation's indices lie inside the declared dense
ranges, failing with `InvalidIndex` otherwise, and stores the aggregated
adjacency lists. -/
def buildIndex (Nu Np : ℕ) (entries : List Obs) :
    Except IndexError InteractionIndex :=
  match entries.find? (fun e => decide (Nu ≤ e.1) || decide (Np ≤ e.2.1)) with
  | some e => .error (.InvalidIndex e.1 e.2.1)
  | none => .ok ⟨Nu, Np, by_userOf entries, by_itemOf entries⟩

/-! ## ALS Solver (spec-modelled) -/

/-- A latent factor vector of rank `k`. -/
abbrev Vec (k : ℕ) := Fin k → ℚ

/-- A `k`-by-`k` rational matrix. -/
abbrev Mat (k : ℕ) := Matrix (Fin k) (Fin k) ℚ

/-- Modelled from the spec: the exact linear solve of the k-by-k system via
Cramer's rule; a singular system defensively yields the zero vector. -/
def linsolve {k : ℕ} (A : Mat k) (b : Vec k) : Vec k :=
  fun j => A.cramer b j / A.det

/-- Modelled from the spec: the Gram matrix of the opposite factor side,
computed once per phase over all `n` rows and shared across the rows being
solved. -/
def gram {k : ℕ} (n : ℕ) (Y : ℕ → Vec k) : Mat k :=
  ∑ i : Fin n, Matrix.vecMulVec (Y i) (Y i)

/-- Modelled from the spec: the per-row system matrix, accumulating the
confidence-weighted outer products of the row's interaction list onto the
shared Gram matrix and adding the regularization term. -/
def A_u {k : ℕ} (g : Mat k) (lambda : ℚ) (Y : ℕ → Vec k)
    (lst : List (ℕ × ℚ)) : Mat k :=
  g + ∑ r : Fin lst.length,
        ((lst.get r).2 - 1) • Matrix.vecMulVec (Y (lst.get r).1) (Y (lst.get r).1)
    + lambda • (1 : Mat k)

/-- Modelled from the spec: the per-row right-hand side, accumulating the
confidence-weighted opposite factors of the row's interaction list. -/
def b_u {k : ℕ} (Y : ℕ → Vec k) (lst : List (ℕ × ℚ)) : Vec k :=
  ∑ r : Fin lst.length, (lst.get r).2 • Y (lst.get r).1

/-- Modelled from the spec: one solve phase.  Each row is assigned the
solution of its own k-by-k system, built from the Gram matrix shared by the
whole phase. -/
def solvePhase {k : ℕ} (n : ℕ) (lambda : ℚ) (byRow : ℕ → List (ℕ × ℚ))
    (Y : ℕ → Vec k) : ℕ → Vec k :=
  fun u => linsolve (A_u (gram n Y) lambda Y (byRow u)) (b_u Y (byRow u))

/-- Modelled from the spec: one outer ALS iteration, the "solve X" phase
against the frozen Y followed by the "solve Y" phase against the fresh X. -/
def alsStep {k : ℕ} (idx : InteractionIndex) (lambda : ℚ)
    (XY : (ℕ → Vec k) × (ℕ → Vec k)) : (ℕ → Vec k) × (ℕ → Vec k) :=
  let X2 := solvePhase idx.Np lambda idx.by_user XY.2
  (X2, solvePhase idx.Nu lambda idx.by_item X2)

/-- The fixed iteration budget of the solver, as explicit recursion. -/
def trainLoop {k : ℕ} (idx : InteractionIndex) (lambda : ℚ) :
    ℕ → (ℕ → Vec k) × (ℕ → Vec k) → (ℕ → Vec k) × (ℕ → Vec k)
  | 0, s => s
  | n + 1, s => alsStep idx lambda (trainLoop idx lambda n s)

/-- Modelled from the spec: deterministic pseudo-random factor
initialization derived from the seed. -/
def initFactors (k : ℕ) (seed : ℕ) : ℕ → Vec k :=
  fun u j => (((seed + 31 * u + 17 * (j : ℕ)) % 997 + 1 : ℕ) : ℚ) / 997

/-- The configuration of one training run. -/
structure ALSConfig where
  iterations : ℕ
  alpha : ℚ
  lambda : ℚ
  seed : ℕ
deriving DecidableEq

/-- Modelled from the spec: the ALS training entry point, iterating the
alternating solve for the configured number of outer iterations from the
seeded initialization. -/
def trainImplicit (rank : ℕ) (cfg : ALSConfig) (idx : InteractionIndex) :
    (ℕ → Vec rank) × (ℕ → Vec rank) :=
  trainLoop idx cfg.lambda cfg.iterations
    (initFactors rank cfg.seed, initFactors rank (cfg.seed + 1))

/-- Modelled from the spec: the confidence entries derived from the raw
observation stream by the Confidence Model. -/
def confEntries (alpha : ℚ) (obs : List Obs) : List Obs :=
  obs.filterMap fun o =>
    (confidence_and_preference o.2.2 alpha).map fun pc => (o.1, o.2.1, pc.2)

/-- Modelled from the spec: the full training pipeline from raw
observations, i.e. Confidence Model, Sparse Interaction Index and then the
ALS Solver. -/
def trainFromObs (rank : ℕ) (cfg : ALSConfig) (Nu Np : ℕ) (obs : List Obs) :
    Except IndexError ((ℕ → Vec rank) × (ℕ → Vec rank)) :=
  (buildIndex Nu Np (confEntries cfg.alpha obs)).map (trainImplicit rank cfg)

/-! ## Recommendation Engine (spec-modelled) -/

/-- Query-time errors of the Recommendation Engine. -/
inductive QueryError where
  | OutOfRange : QueryError
  | InvalidK : QueryError
deriving DecidableEq

/-- The dot product of two factor vectors. -/
def dotp {k : ℕ} (x y : Vec k) : ℚ := ∑ j, x j * y j

/-- Modelled from the spec: the point query of the Recommendation Engine,
returning the dot product of the two factor rows, with bounds checking. -/
def predict {k : ℕ} (Nu Np : ℕ) (X Y : ℕ → Vec k) (u i : ℕ) :
    Except QueryError ℚ :=
  if u < Nu ∧ i < Np then .ok (dotp (X u) (Y i)) else .error .OutOfRange

/-- The ranking order used by the top-k query: score descending, ties broken
by ascending item index. -/
def recOrder (a b : ℕ × ℚ) : Prop :=
  b.2 < a.2 ∨ (a.2 = b.2 ∧ a.1 ≤ b.1)

instance : DecidableRel recOrder := fun a b => by
  unfold recOrder; exact inferInstance

instance : IsTotal (ℕ × ℚ) recOrder := by
  constructor
  intro a b
  rcases lt_trichotomy a.2 b.2 with h | h | h
  · exact Or.inr (Or.inl h)
  · rcases Nat.le_total a.1 b.1 with h1 | h1
    · exact Or.inl (Or.inr ⟨h, h1⟩)
    · exact Or.inr (Or.inr ⟨h.symm, h1⟩)
  · exact Or.inl (Or.inl h)

instance : IsTrans (ℕ × ℚ) recOrder := by
  constructor
  intro a b c hab hbc
  rcases hab with h1 | ⟨h1, h1i⟩
  · rcases hbc with h2 | ⟨h2, _⟩
    · exact Or.inl (h2.trans h1)
    · exact Or.inl (h2 ▸ h1)
  · rcases hbc with h2 | ⟨h2, h2i⟩
    · exact Or.inl (h2.trans_le h1.ge)
    · exact Or.inr ⟨h1.trans h2, h1i.trans h2i⟩

/-- Modelled from the spec and the notebook's query pattern (score every
candidate item not in the exclusion set, then take the ordered head, as the
notebook's `unseen` filter plus `predictions.takeOrdered` does): the top-k
query of the Recommendation Engine. -/
def top_k {k : ℕ} (Np : ℕ) (X Y : ℕ → Vec k) (u kk : ℕ)
    (exclude : List ℕ) : List (ℕ × ℚ) :=
  let cands := (List.range Np).filter fun i => decide (i ∉ exclude)
  let scored := cands.map fun i => (i, dotp (X u) (Y i))
  (scored.insertionSort recOrder).take kk

/-! ## Spec-side matrix formulation of the per-row system -/

/-- Following the spec's words: the restriction of the opposite factor
matrix to the rows named by an interaction list. -/
def Yu {k : ℕ} (Y : ℕ → Vec k) (lst : List (ℕ × ℚ)) :
    Matrix (Fin lst.length) (Fin k) ℚ :=
  Matrix.of fun r j => Y (lst.get r).1 j

/-- Following the spec's words: the diagonal matrix of the confidences of an
interaction list. -/
def Cu (lst : List (ℕ × ℚ)) : Matrix (Fin lst.length) (Fin lst.length) ℚ :=
  Matrix.diagonal fun r => (lst.get r).2

/-- Following the spec's words: the full opposite factor matrix over all `n`
rows. -/
def Yall {k : ℕ} (n : ℕ) (Y : ℕ → Vec k) : Matrix (Fin n) (Fin k) ℚ :=
  Matrix.of fun i j => Y i j

/-- Following the spec's words: the per-row system matrix
`Y^T Y + Yu^T (Cu - I) Yu + lambda I`. -/
def AuSpec {k : ℕ} (n : ℕ) (Y : ℕ → Vec k) (lambda : ℚ)
    (lst : List (ℕ × ℚ)) : Mat k :=
  (Yall n Y)ᵀ * Yall n Y + (Yu Y lst)ᵀ * (Cu lst - 1) * Yu Y lst
    + lambda • 1

/-- Following the spec's words: the per-row right-hand side
`Yu^T Cu p` with `p` the all-ones preference vector. -/
def buSpec {k : ℕ} (Y : ℕ → Vec k) (lst : List (ℕ × ℚ)) : Vec k :=
  (Yu Y lst)ᵀ *ᵥ (Cu lst *ᵥ fun _ => 1)

/-! ## Supporting lemmas -/

/-- The implementation's shared Gram accumulation equals the spec's
transpose product over all opposite rows. -/
theorem gram_eq {k : ℕ} (n : ℕ) (Y : ℕ → Vec k) :
    gram n Y = (Yall n Y)ᵀ * Yall n Y := by
  ext a b
  rw [Matrix.mul_apply]
  unfold gram
  rw [Matrix.sum_apply]
  refine Finset.sum_congr rfl fun r _ => ?_
  rw [Matrix.vecMulVec_apply, Matrix.transpose_apply]
  rfl

/-- The implementation's per-row system matrix equals the spec's
`Y^T Y + Yu^T (Cu - I) Yu + lambda I`. -/
theorem A_u_eq {k : ℕ} (n : ℕ) (lambda : ℚ) (Y : ℕ → Vec k)
    (lst : List (ℕ × ℚ)) :
    A_u (gram n Y) lambda Y lst = AuSpec n Y lambda lst := by
  have hD : Cu lst - (1 : Matrix (Fin lst.length) (Fin lst.length) ℚ)
      = Matrix.diagonal fun r => (lst.get r).2 - 1 := by
    unfold Cu
    rw [← Matrix.diagonal_one, Matrix.diagonal_sub]
  unfold A_u AuSpec
  rw [gram_eq]
  congr 1
  congr 1
  ext a b
  rw [Matrix.sum_apply, Matrix.mul_assoc, Matrix.mul_apply]
  refine Finset.sum_congr rfl fun r _ => ?_
  rw [hD, Matrix.diagonal_mul, Matrix.smul_apply, Matrix.vecMulVec_apply,
    Matrix.transpose_apply]
  simp only [Yu, Matrix.of_apply, smul_eq_mul]
  ring

/-- The implementation's per-row right-hand side equals the spec's
`Yu^T Cu p` with `p` all ones. -/
theorem b_u_eq {k : ℕ} (Y : ℕ → Vec k) (lst : List (ℕ × ℚ)) :
    b_u Y lst = buSpec Y lst := by
  funext j
  unfold b_u buSpec
  have hin : (Cu lst *ᵥ fun _ => (1:ℚ)) = fun r => (lst.get r).2 := by
    funext r
    unfold Cu
    rw [Matrix.mulVec_diagonal, mul_one]
  rw [Finset.sum_apply, hin]
  simp only [Matrix.mulVec, Matrix.dotProduct, Matrix.transpose_apply, Yu,
    Matrix.of_apply, Pi.smul_apply, smul_eq_mul]
  refine Finset.sum_congr rfl fun r _ => ?_
  ring

/-- The Cramer-based solve returns a genuine solution whenever the system is
nonsingular. -/
theorem linsolve_mulVec {k : ℕ} (A : Mat k) (b : Vec k) (h : A.det ≠ 0) :
    A *ᵥ linsolve A b = b := by
  have hl : linsolve A b = A.det⁻¹ • A.cramer b := by
    funext j
    unfold linsolve
    rw [Pi.smul_apply, smul_eq_mul, div_eq_inv_mul]
  rw [hl, Matrix.mulVec_smul, Matrix.mulVec_cramer, smul_smul,
    inv_mul_cancel₀ h, one_smul]

/-- A zero right-hand side solves to the zero vector. -/
theorem linsolve_zero_rhs {k : ℕ} (A : Mat k) : linsolve A (0 : Vec k) = 0 := by
  funext j
  unfold linsolve
  rw [map_zero]
  simp

/-- The right-hand side of a row with an empty interaction list is zero. -/
theorem b_u_nil {k : ℕ} (Y : ℕ → Vec k) :
    b_u Y ([] : List (ℕ × ℚ)) = 0 :=
  Finset.sum_eq_zero fun r _ => Fin.elim0 r

/-- A row with an empty interaction list is solved to the zero vector. -/
theorem solvePhase_nil {k : ℕ} (n : ℕ) (lambda : ℚ)
    (byRow : ℕ → List (ℕ × ℚ)) (Y : ℕ → Vec k) (u : ℕ)
    (h : byRow u = []) : solvePhase n lambda byRow Y u = 0 := by
  unfold solvePhase
  rw [h, b_u_nil, linsolve_zero_rhs]

/-- Membership in `zipWithIndex` pins the element to the position given by
its second component. -/
theorem mem_zipWithIndex {α : Type} {l : List α} {p : α × ℕ}
    (hp : p ∈ zipWithIndex l) :
    ∃ h : p.2 < l.length, l.get ⟨p.2, h⟩ = p.1 := by
  unfold zipWithIndex at hp
  obtain ⟨i, hget⟩ := List.mem_iff_get.mp hp
  rw [List.get_zip] at hget
  have h2 : (i : ℕ) = p.2 := by
    have := congrArg Prod.snd hget
    simpa using this
  have h1 : l.get ⟨i, List.lt_length_left_of_zip i.isLt⟩ = p.1 :=
    congrArg Prod.fst hget
  have hb : p.2 < l.length := h2 ▸ List.lt_length_left_of_zip i.isLt
  refine ⟨hb, ?_⟩
  rw [← h1]
  exact congrArg l.get (Fin.ext h2.symm)

/-! ## Claim theorems -/

/-- Claim C2: for every raw strength > 0 and alpha > 0, the Confidence Model
produces preference 1 and confidence exactly 1 + alpha * raw_strength; it is
a pure function of its two arguments. -/
theorem confidenceModel_positive (raw_strength alpha : ℚ)
    (hr : 0 < raw_strength) (_ha : 0 < alpha) :
    confidence_and_preference raw_strength alpha
      = some (1, 1 + alpha * raw_strength) := by
  unfold confidence_and_preference
  rw [if_pos hr]

/-- Witness for claim C2 at raw strength 2 and alpha 1. -/
theorem confidenceModel_positive_witness :
    (0 : ℚ) < 2 ∧ (0 : ℚ) < 1 ∧
      confidence_and_preference 2 1 = some (1, 1 + 1 * 2) :=
  ⟨by decide, by decide, confidenceModel_positive 2 1 (by decide) (by decide)⟩

/-- Claim C7: an observation with non-positive raw strength yields no
confidence entry at all, and contributes nothing to the stored entry
stream. -/
theorem confidenceModel_drops_nonpositive (alpha : ℚ) (o : Obs)
    (h : o.2.2 ≤ 0) (obs : List Obs) :
    confidence_and_preference o.2.2 alpha = none ∧
      confEntries alpha (o :: obs) = confEntries alpha obs := by
  have h1 : confidence_and_preference o.2.2 alpha = none := by
    unfold confidence_and_preference
    rw [if_neg (not_lt.mpr h)]
  refine ⟨h1, ?_⟩
  unfold confEntries
  rw [List.filterMap_cons]
  rw [h1]
  rfl

/-- Witness for claim C7 at the observation (0, 0, 0). -/
theorem confidenceModel_drops_nonpositive_witness :
    ((0, 0, (0:ℚ)) : Obs).2.2 ≤ 0 ∧
      confidence_and_preference 0 1 = none ∧
      confEntries 1 [(0, 0, (0:ℚ))] = confEntries 1 [] :=
  ⟨by decide, (confidenceModel_drops_nonpositive 1 (0, 0, 0) (by decide) []).1,
    (confidenceModel_drops_nonpositive 1 (0, 0, 0) (by decide) []).2⟩

/-- Claim C9: Sparse Interaction Index construction fails with
`InvalidIndex` whenever some observation's user index or item index lies
outside the declared dense ranges; the reported indices are themselves out
of range, so nothing is silently clamped. -/
theorem buildIndex_invalid (Nu Np : ℕ) (entries : List Obs)
    (h : ∃ e ∈ entries, Nu ≤ e.1 ∨ Np ≤ e.2.1) :
    ∃ u i, (Nu ≤ u ∨ Np ≤ i) ∧
      buildIndex Nu Np entries = .error (.InvalidIndex u i) := by
  have hs : (entries.find?
      fun e => decide (Nu ≤ e.1) || decide (Np ≤ e.2.1)).isSome := by
    rw [List.find?_isSome]
    obtain ⟨e, he, hor⟩ := h
    exact ⟨e, he, by simpa using hor⟩
  obtain ⟨e, hfind⟩ := Option.isSome_iff_exists.mp hs
  have hp := List.find?_some hfind
  refine ⟨e.1, e.2.1, by simpa using hp, ?_⟩
  unfold buildIndex
  rw [hfind]

/-- Witness for claim C9: a single observation with user index 5 outside
the declared range of 1 user. -/
theorem buildIndex_invalid_witness :
    (∃ e ∈ ([(5, 0, (1:ℚ))] : List Obs), 1 ≤ e.1 ∨ 1 ≤ e.2.1) ∧
      ∃ u i, (1 ≤ u ∨ 1 ≤ i) ∧
        buildIndex 1 1 [(5, 0, (1:ℚ))] = .error (.InvalidIndex u i) :=
  ⟨⟨(5, 0, 1), by simp, Or.inl (by decide)⟩,
    buildIndex_invalid 1 1 [(5, 0, (1:ℚ))]
      ⟨(5, 0, 1), by simp, Or.inl (by decide)⟩⟩

/-- Claim C3: the Sparse Interaction Index stores each (user, item) pair at
most once per adjacency list, and the single stored confidence is the sum of
the confidences of all duplicate entries for that pair. -/
theorem index_aggregates_duplicates (entries : List Obs) (u i : ℕ) :
    ((by_userOf entries u).map Prod.fst).Nodup ∧
      ((by_itemOf entries i).map Prod.fst).Nodup ∧
      (∀ p ∈ by_userOf entries u,
        p.2 = ((entries.filter
          fun e => decide (e.1 = u) && decide (e.2.1 = p.1)).map
            fun e => e.2.2).sum) ∧
      (∀ q ∈ by_itemOf entries i,
        q.2 = ((entries.filter
          fun e => decide (e.1 = q.1) && decide (e.2.1 = i)).map
            fun e => e.2.2).sum) := by
  refine ⟨?_, ?_, ?_, ?_⟩
  · unfold by_userOf
    rw [List.map_map]
    have : (Prod.fst ∘ fun j => ((j, aggConf entries u j) : ℕ × ℚ))
        = fun j => j := rfl
    rw [this, List.map_id']
    exact List.nodup_dedup _
  · unfold by_itemOf
    rw [List.map_map]
    have : (Prod.fst ∘ fun v => ((v, aggConf entries v i) : ℕ × ℚ))
        = fun v => v := rfl
    rw [this, List.map_id']
    exact List.nodup_dedup _
  · intro p hp
    unfold by_userOf at hp
    obtain ⟨j, _, hj⟩ := List.mem_map.mp hp
    rw [← hj]
    rfl
  · intro q hq
    unfold by_itemOf at hq
    obtain ⟨v, _, hv⟩ := List.mem_map.mp hq
    rw [← hv]
    rfl

/-- The adjacency list of the duplicated stream used by the aggregation
witness collapses to a single pair carrying the summed confidence. -/
theorem by_userOf_dup_example :
    ((0, (5:ℚ)) : ℕ × ℚ) ∈ by_userOf [(0, 0, (2:ℚ)), (0, 0, (3:ℚ))] 0 := by
  norm_num [by_userOf, userItems, aggConf, List.dedup]

/-- Witness for claim C3 on a stream with a duplicated (0, 0) pair. -/
theorem index_aggregates_duplicates_witness :
    (((0, (5:ℚ)) : ℕ × ℚ) ∈ by_userOf [(0, 0, (2:ℚ)), (0, 0, (3:ℚ))] 0) ∧
      (((0, (5:ℚ)) : ℕ × ℚ).2
        = ((([(0, 0, (2:ℚ)), (0, 0, (3:ℚ))] : List Obs).filter
            fun (e : Obs) =>
              decide (e.1 = 0) && decide (e.2.1 = ((0, (5:ℚ)) : ℕ × ℚ).1)).map
              fun (e : Obs) => e.2.2).sum) ∧
      ((by_userOf [(0, 0, (2:ℚ)), (0, 0, (3:ℚ))] 0).map Prod.fst).Nodup :=
  ⟨by_userOf_dup_example,
    (index_aggregates_duplicates [(0, 0, (2:ℚ)), (0, 0, (3:ℚ))] 0 0).2.2.1
      (0, 5) by_userOf_dup_example,
    (index_aggregates_duplicates [(0, 0, (2:ℚ)), (0, 0, (3:ℚ))] 0 0).1⟩

/-- Claim C10: the ISBN densification is consistent (equal isbns get equal
indices), injective (equal indices come from equal isbns) and assigns
exactly the indices 0 through the number of distinct isbns minus 1. -/
theorem isbn_densification (ratings : List RawRating) :
    (∀ p ∈ isbns_with_indices ratings, ∀ q ∈ isbns_with_indices ratings,
        (p.1 = q.1 → p.2 = q.2) ∧ (p.2 = q.2 → p.1 = q.1)) ∧
      (isbns_with_indices ratings).map Prod.snd
        = List.range (isbns ratings).length := by
  have hnd : (isbns ratings).Nodup := List.nodup_dedup _
  constructor
  · intro p hp q hq
    obtain ⟨hbp, hgp⟩ := mem_zipWithIndex hp
    obtain ⟨hbq, hgq⟩ := mem_zipWithIndex hq
    constructor
    · intro h1
      have : (isbns ratings).get ⟨p.2, hbp⟩ = (isbns ratings).get ⟨q.2, hbq⟩ := by
        rw [hgp, hgq, h1]
      have := (hnd.get_inj_iff).mp this
      exact congrArg Fin.val this
    · intro h2
      rw [← hgp, ← hgq]
      exact congrArg (isbns ratings).get (Fin.ext h2)
  · unfold isbns_with_indices zipWithIndex
    exact List.map_snd_zip _ _ (by simp)

/-- Witness for claim C10 on a three-row stream with a repeated isbn. -/
theorem isbn_densification_witness :
    (("a", 1) ∈ isbns_with_indices [(1, "a", 0), (2, "b", 0), (3, "a", 0)]) ∧
      (1 : ℕ) = 1 ∧
      (isbns_with_indices [(1, "a", 0), (2, "b", 0), (3, "a", 0)]).map Prod.snd
        = List.range (isbns [(1, "a", 0), (2, "b", 0), (3, "a", 0)]).length :=
  ⟨by decide,
    (((isbn_densification [(1, "a", 0), (2, "b", 0), (3, "a", 0)]).1
      ("a", 1) (by decide) ("a", 1) (by decide)).1 rfl),
    (isbn_densification [(1, "a", 0), (2, "b", 0), (3, "a", 0)]).2⟩

/-- Claim C1: in a solve phase, every row with a non-empty interaction list
is assigned the solution of the spec's k-by-k system, whose matrix is the
shared full Gram matrix plus the restricted confidence correction plus the
regularization term, and whose right-hand side weights the restricted rows
by their confidences against the all-ones preference vector (the solve-Y
phase is the same statement of `solvePhase` with the roles swapped). -/
theorem solveX_assigns_system_solution {k : ℕ} (n : ℕ) (lambda : ℚ)
    (byRow : ℕ → List (ℕ × ℚ)) (Y : ℕ → Vec k) (u : ℕ)
    (_hne : byRow u ≠ [])
    (hdet : (AuSpec n Y lambda (byRow u)).det ≠ 0) :
    AuSpec n Y lambda (byRow u) *ᵥ solvePhase n lambda byRow Y u
      = buSpec Y (byRow u) := by
  have h1 : solvePhase n lambda byRow Y u
      = linsolve (AuSpec n Y lambda (byRow u)) (buSpec Y (byRow u)) := by
    unfold solvePhase
    rw [A_u_eq, b_u_eq]
  rw [h1, linsolve_mulVec _ _ hdet]

/-- The concrete rank-1 system of the solve-phase witness is nonsingular:
its single entry is 1 + (2 - 1) + 1 = 3. -/
theorem AuSpec_example_det_ne_zero :
    (@AuSpec 1 1 (fun _ _ => 1) 1 [(0, (2:ℚ))]).det ≠ 0 := by
  norm_num [AuSpec, Yall, Yu, Cu, Matrix.det_fin_one, Matrix.add_apply,
    Matrix.mul_apply, Matrix.smul_apply, Matrix.one_apply, Matrix.sub_apply,
    Matrix.transpose_apply, Matrix.of_apply, Matrix.diagonal_apply,
    Fin.sum_univ_one]

/-- Witness for claim C1 on a rank-1 instance with one interacted item of
confidence 2. -/
theorem solveX_assigns_system_solution_witness :
    (((fun _ => [(0, (2:ℚ))]) : ℕ → List (ℕ × ℚ)) 0 ≠ []) ∧
      (@AuSpec 1 1 (fun _ _ => 1) 1 [(0, (2:ℚ))]).det ≠ 0 ∧
      @AuSpec 1 1 (fun _ _ => 1) 1 [(0, (2:ℚ))]
          *ᵥ @solvePhase 1 1 1 (fun _ => [(0, (2:ℚ))]) (fun _ _ => 1) 0
        = @buSpec 1 (fun _ _ => 1) [(0, (2:ℚ))] :=
  ⟨by decide, AuSpec_example_det_ne_zero,
    solveX_assigns_system_solution 1 1 (fun _ => [(0, (2:ℚ))])
      (fun _ _ => 1) 0 (by decide) AuSpec_example_det_ne_zero⟩

/-- Claim C6: after at least one outer iteration, every user with an empty
interaction list has a zero factor row, and likewise every item. -/
theorem empty_interactions_zero_row (rank : ℕ) (cfg : ALSConfig)
    (idx : InteractionIndex) (hiter : 1 ≤ cfg.iterations) :
    (∀ u, idx.by_user u = [] → (trainImplicit rank cfg idx).1 u = 0) ∧
      (∀ i, idx.by_item i = [] → (trainImplicit rank cfg idx).2 i = 0) := by
  obtain ⟨m, hm⟩ : ∃ m, cfg.iterations = m + 1 :=
    ⟨cfg.iterations - 1, by omega⟩
  unfold trainImplicit
  rw [hm]
  simp only [trainLoop]
  constructor
  · intro u hu
    exact solvePhase_nil _ _ _ _ _ hu
  · intro i hi
    exact solvePhase_nil _ _ _ _ _ hi

/-- Witness for claim C6 on a one-iteration run over an index with no
interactions at all. -/
theorem empty_interactions_zero_row_witness :
    1 ≤ (1:ℕ) ∧
      (trainImplicit 1 ⟨1, 1, 1, 0⟩ ⟨1, 1, fun _ => [], fun _ => []⟩).1 0 = 0 ∧
      (trainImplicit 1 ⟨1, 1, 1, 0⟩ ⟨1, 1, fun _ => [], fun _ => []⟩).2 0 = 0 :=
  ⟨Nat.le_refl 1,
    (empty_interactions_zero_row 1 ⟨1, 1, 1, 0⟩
      ⟨1, 1, fun _ => [], fun _ => []⟩ (Nat.le_refl 1)).1 0 rfl,
    (empty_interactions_zero_row 1 ⟨1, 1, 1, 0⟩
      ⟨1, 1, fun _ => [], fun _ => []⟩ (Nat.le_refl 1)).2 0 rfl⟩

/-- Claim C4: two training runs on identical observation streams, identical
configuration and the same seed produce factor matrices within any
non-negative tolerance of each other (in this exact-arithmetic model they
are equal). -/
theorem training_deterministic (rank : ℕ) (cfg1 cfg2 : ALSConfig)
    (Nu1 Nu2 Np1 Np2 : ℕ) (obs1 obs2 : List Obs)
    (hc : cfg1 = cfg2) (hn : Nu1 = Nu2) (hp : Np1 = Np2) (ho : obs1 = obs2)
    (X1 Y1 X2 Y2 : ℕ → Vec rank)
    (h1 : trainFromObs rank cfg1 Nu1 Np1 obs1 = .ok (X1, Y1))
    (h2 : trainFromObs rank cfg2 Nu2 Np2 obs2 = .ok (X2, Y2))
    (tol : ℚ) (ht : 0 ≤ tol) :
    ∀ u j, |X1 u j - X2 u j| ≤ tol ∧ |Y1 u j - Y2 u j| ≤ tol := by
  subst hc
  subst hn
  subst hp
  subst ho
  rw [h1] at h2
  injection h2 with h3
  have hX : X1 = X2 := congrArg Prod.fst h3
  have hY : Y1 = Y2 := congrArg Prod.snd h3
  subst hX
  subst hY
  intro u j
  constructor <;> (rw [sub_self, abs_zero]; exact ht)

/-- Witness for claim C4: both runs on the same empty-after-filtering
stream, checked at entry (0, 0). -/
theorem training_deterministic_witness :
    (0:ℚ) ≤ 1 ∧
      trainFromObs 1 ⟨1, 1, 1, 0⟩ 1 1 [(0, 0, (0:ℚ))]
        = .ok ((trainImplicit 1 ⟨1, 1, 1, 0⟩
              ⟨1, 1, by_userOf (confEntries 1 [(0, 0, (0:ℚ))]),
                by_itemOf (confEntries 1 [(0, 0, (0:ℚ))])⟩).1,
            (trainImplicit 1 ⟨1, 1, 1, 0⟩
              ⟨1, 1, by_userOf (confEntries 1 [(0, 0, (0:ℚ))]),
                by_itemOf (confEntries 1 [(0, 0, (0:ℚ))])⟩).2) ∧
      |(trainImplicit 1 ⟨1, 1, 1, 0⟩
            ⟨1, 1, by_userOf (confEntries 1 [(0, 0, (0:ℚ))]),
              by_itemOf (confEntries 1 [(0, 0, (0:ℚ))])⟩).1 0 0
          - (trainImplicit 1 ⟨1, 1, 1, 0⟩
            ⟨1, 1, by_userOf (confEntries 1 [(0, 0, (0:ℚ))]),
              by_itemOf (confEntries 1 [(0, 0, (0:ℚ))])⟩).1 0 0| ≤ 1 :=
  ⟨by decide, rfl,
    ((training_deterministic 1 ⟨1, 1, 1, 0⟩ ⟨1, 1, 1, 0⟩ 1 1 1 1
      [(0, 0, (0:ℚ))] [(0, 0, (0:ℚ))] rfl rfl rfl rfl _ _ _ _ rfl rfl
      1 (by decide)) 0 0).1⟩

/-- Claim C8: for in-range indices, the point query on the trained model
returns exactly the dot product of the corresponding rows of the trained
factor matrices. -/
theorem predict_is_row_dot (rank : ℕ) (cfg : ALSConfig)
    (idx : InteractionIndex) (u i : ℕ) (hu : u < idx.Nu) (hi : i < idx.Np) :
    predict idx.Nu idx.Np (trainImplicit rank cfg idx).1
        (trainImplicit rank cfg idx).2 u i
      = .ok (dotp ((trainImplicit rank cfg idx).1 u)
          ((trainImplicit rank cfg idx).2 i)) := by
  unfold predict
  rw [if_pos ⟨hu, hi⟩]

/-- Witness for claim C8 on a 1-user, 1-item model. -/
theorem predict_is_row_dot_witness :
    0 < (1:ℕ) ∧ 0 < (1:ℕ) ∧
      predict 1 1
          (trainImplicit 1 ⟨1, 1, 1, 0⟩ ⟨1, 1, fun _ => [], fun _ => []⟩).1
          (trainImplicit 1 ⟨1, 1, 1, 0⟩ ⟨1, 1, fun _ => [], fun _ => []⟩).2 0 0
        = .ok (dotp
            ((trainImplicit 1 ⟨1, 1, 1, 0⟩ ⟨1, 1, fun _ => [], fun _ => []⟩).1 0)
            ((trainImplicit 1 ⟨1, 1, 1, 0⟩ ⟨1, 1, fun _ => [], fun _ => []⟩).2 0)) :=
  ⟨Nat.zero_lt_one, Nat.zero_lt_one,
    predict_is_row_dot 1 ⟨1, 1, 1, 0⟩ ⟨1, 1, fun _ => [], fun _ => []⟩ 0 0
      Nat.zero_lt_one Nat.zero_lt_one⟩

/-- Claim C5: the top-k query never returns an excluded item, its scores are
monotonically non-increasing along the returned sequence, and score ties are
ordered by ascending item index. -/
theorem top_k_sound {k : ℕ} (Np : ℕ) (X Y : ℕ → Vec k) (u kk : ℕ)
    (exclude : List ℕ) :
    (∀ p ∈ top_k Np X Y u kk exclude, p.1 ∉ exclude) ∧
      (∀ a b : Fin (top_k Np X Y u kk exclude).length, a < b →
        ((top_k Np X Y u kk exclude).get b).2
          ≤ ((top_k Np X Y u kk exclude).get a).2) ∧
      (∀ a b : Fin (top_k Np X Y u kk exclude).length, a < b →
        ((top_k Np X Y u kk exclude).get a).2
            = ((top_k Np X Y u kk exclude).get b).2 →
        ((top_k Np X Y u kk exclude).get a).1
          ≤ ((top_k Np X Y u kk exclude).get b).1) := by
  have hsorted : (top_k Np X Y u kk exclude).Sorted recOrder := by
    unfold top_k
    exact List.Pairwise.sublist (List.take_sublist _ _)
      (List.sorted_insertionSort recOrder _)
  refine ⟨?_, ?_, ?_⟩
  · intro p hp
    unfold top_k at hp
    have hp2 := List.take_subset _ _ hp
    rw [List.mem_insertionSort] at hp2
    obtain ⟨i0, hi0, hpe⟩ := List.mem_map.mp hp2
    rw [List.mem_filter] at hi0
    rw [← hpe]
    simpa using hi0.2
  · intro a b hab
    rcases hsorted.rel_get_of_lt hab with h | ⟨h1, _⟩
    · exact le_of_lt h
    · exact h1.ge
  · intro a b hab heq
    rcases hsorted.rel_get_of_lt hab with h | ⟨_, h2⟩
    · exact absurd (heq ▸ h) (lt_irrefl _)
    · exact h2

/-- Witness for claim C5 on a rank-0 model over two items: exclusion with
exclude = set containing item 1, and ordering plus tie-break on the
all-zero-score two-item result. -/
theorem top_k_sound_witness :
    ((((0, (0:ℚ)) : ℕ × ℚ)
        ∈ @top_k 0 2 (fun _ _ => 0) (fun _ _ => 0) 0 2 [1]) ∧
      (0:ℕ) ∉ ([1] : List ℕ)) ∧
      (((⟨0, by decide⟩ : Fin (@top_k 0 2 (fun _ _ => 0) (fun _ _ => 0) 0 2 []).length)
          < (⟨1, by decide⟩ : Fin (@top_k 0 2 (fun _ _ => 0) (fun _ _ => 0) 0 2 []).length)) ∧
        ((@top_k 0 2 (fun _ _ => 0) (fun _ _ => 0) 0 2 []).get ⟨1, by decide⟩).2
          ≤ ((@top_k 0 2 (fun _ _ => 0) (fun _ _ => 0) 0 2 []).get ⟨0, by decide⟩).2) ∧
      (((@top_k 0 2 (fun _ _ => 0) (fun _ _ => 0) 0 2 []).get ⟨0, by decide⟩).2
          = ((@top_k 0 2 (fun _ _ => 0) (fun _ _ => 0) 0 2 []).get ⟨1, by decide⟩).2 ∧
        ((@top_k 0 2 (fun _ _ => 0) (fun _ _ => 0) 0 2 []).get ⟨0, by decide⟩).1
          ≤ ((@top_k 0 2 (fun _ _ => 0) (fun _ _ => 0) 0 2 []).get ⟨1, by decide⟩).1) :=
  ⟨⟨by decide,
      (@top_k_sound 0 2 (fun _ _ => 0) (fun _ _ => 0) 0 2 [1]).1
        (0, 0) (by decide)⟩,
    ⟨by decide,
      (@top_k_sound 0 2 (fun _ _ => 0) (fun _ _ => 0) 0 2 []).2.1
        ⟨0, by decide⟩ ⟨1, by decide⟩ (by decide)⟩,
    ⟨by decide,
      (@top_k_sound 0 2 (fun _ _ => 0) (fun _ _ => 0) 0 2 []).2.2
        ⟨0, by decide⟩ ⟨1, by decide⟩ (by decide) (by decide)⟩⟩

end ImplicitALS
